import Mathlib

/-!
Verification development for the chat widget in
`frontend/static/js/chat.js` (the CCCC.AI chat frontend).

The script is shallowly embedded: strings are `List Char`/`String`,
JS regular-expression replacements are modelled by explicit scanning
functions that follow the engine's leftmost, lazy/greedy, backtracking
behaviour, the `fetch` exchange is modelled by a network-outcome
oracle, and the asynchronous `send` is split at its `await` point into
`sendBegin`/`sendSettle`, which also drive a small-step event machine.
-/

/-- JS `\s` whitespace class, restricted to the whitespace characters
that can realistically occur in chat input. -/
def jsWS (c : Char) : Bool :=
  c = ' ' || c = '\t' || c = '\n' || c = '\r' || c = '\x0b' || c = '\x0c' || c = ' '

/-- The character class `[*-]` of the bullet regex. -/
def isMarker (c : Char) : Bool :=
  c = '-' || c = '*'

/-- `escapeHTML`: the replacement `/[&<>]/g` with the entity map
`{'&':'&amp;','<':'&lt;','>':'&gt;'}` (chat.js line 34). -/
def escapeHTML : List Char → List Char
  | [] => []
  | c :: t =>
    (if c = '&' then ['&', 'a', 'm', 'p', ';']
     else if c = '<' then ['&', 'l', 't', ';']
     else if c = '>' then ['&', 'g', 't', ';']
     else [c]) ++ escapeHTML t

/-- Lazy search for the closing `**` of `/\*\*(.+?)\*\*/`: returns the
shortest non-empty run of non-newline characters (`.` does not match a
newline) followed by `**`, with what remains after the closing `**`. -/
def closeScan : List Char → Option (List Char × List Char)
  | [] => none
  | c :: rest =>
    if c = '\n' then none
    else if rest.take 2 = ['*', '*'] then some ([c], rest.drop 2)
    else (closeScan rest).map (fun p => (c :: p.1, p.2))

/-- One match attempt of `/\*\*(.+?)\*\*/` anchored at the head of
`cs`: on success it returns the replacement `<strong>$1</strong>` and
the remainder of the string after the match. -/
def boldTryAt (cs : List Char) : Option (List Char × List Char) :=
  match cs with
  | a :: b :: rest =>
    if a = '*' && b = '*' then
      (closeScan rest).map (fun p =>
        (['<', 's', 't', 'r', 'o', 'n', 'g', '>'] ++ p.1 ++
         ['<', '/', 's', 't', 'r', 'o', 'n', 'g', '>'], p.2))
    else none
  | _ => none

/-- The global scan of `String.prototype.replace` with
`/\*\*(.+?)\*\*/g` (chat.js line 40): at each position try a match;
on success emit the replacement and resume after the matched text,
otherwise emit the character and move on. -/
def boldScan (cs : List Char) : List Char :=
  match cs with
  | [] => []
  | c :: rest =>
    match h : boldTryAt (c :: rest) with
    | some (rep, rest') => rep ++ boldScan rest'
    | none => c :: boldScan rest
termination_by cs.length
decreasing_by
  · have hclose : ∀ (cs : List Char) (p : List Char × List Char),
        closeScan cs = some p → p.2.length + 3 ≤ cs.length := by
      intro cs
      induction cs with
      | nil => intro p h2; simp [closeScan] at h2
      | cons c2 rest2 ih =>
        intro p h2
        simp only [closeScan] at h2
        split at h2
        · exact absurd h2 (by simp)
        · split at h2
          · next htake =>
            have hlen : (2 : Nat) ≤ rest2.length := by
              have := congrArg List.length htake
              simp at this
              omega
            cases h2
            simp
            omega
          · rcases hq : closeScan rest2 with _ | q
            · rw [hq] at h2; simp at h2
            · rw [hq] at h2
              simp at h2
              have := ih q hq
              cases h2
              simp
              omega
    have hbold : ∀ (cs : List Char) (p : List Char × List Char),
        boldTryAt cs = some p → p.2.length < cs.length := by
      intro cs p h2
      unfold boldTryAt at h2
      split at h2
      · next a2 b2 rest2 =>
        split at h2
        · rcases hq : closeScan rest2 with _ | q
          · rw [hq] at h2; simp at h2
          · rw [hq] at h2
            simp at h2
            have := hclose rest2 q hq
            cases h2
            simp
            omega
        · exact absurd h2 (by simp)
      · exact absurd h2 (by simp)
    have := hbold _ _ h
    simpa using this
  · simp

/-- Backtracking case of the bullet regex `[*-]\s+(.+)` when the string
ends inside the whitespace run `w` that follows the marker: `\s+` gives
back characters until `.` can match one (`.` matches any non-newline
character, so this finds the last non-newline character of `w`, which
must not be the first whitespace character since `\s+` needs at least
one).  Returns the replacement tail `• $2` and the leftover newlines. -/
def backWS (w : List Char) : Option (List Char × List Char) :=
  match w.reverse.dropWhile (fun c => c = '\n') with
  | [] => none
  | c :: pre =>
    if pre = [] then none
    else some (['•', ' ', c], (w.reverse.takeWhile (fun c' => c' = '\n')).reverse)

/-- Match of `[*-]\s+(.+)` at the head of `cs` (the part of the bullet
regex after the `(^|\n)` anchor): a marker, a greedy non-empty
whitespace run, then a greedy non-empty run of non-newline characters.
Returns the replacement `• $2` and the remainder of the string. -/
def matchAfterP1 : List Char → Option (List Char × List Char)
  | [] => none
  | m :: cs' =>
    if isMarker m then
      let w := cs'.takeWhile jsWS
      let rest := cs'.dropWhile jsWS
      if w = [] then none
      else if rest = [] then backWS w
      else some ('•' :: ' ' :: rest.takeWhile (fun c => c ≠ '\n'),
                 rest.dropWhile (fun c => c ≠ '\n'))
    else none

/-- One attempt of the full bullet regex `(^|\n)[*-]\s+(.+)` at the
head of `cs`.  The `^` alternative applies only at string position 0
(`atStart`); the engine tries it before the `\n` alternative. -/
def tryMatchAt (atStart : Bool) (cs : List Char) : Option (List Char × List Char) :=
  match (if atStart then matchAfterP1 cs else none) with
  | some r => some r
  | none =>
    match cs with
    | c :: cs' =>
      if c = '\n' then (matchAfterP1 cs').map (fun p => ('\n' :: p.1, p.2)) else none
    | [] => none

/-- The global scan of the replacement
`out.replace(/(^|\n)[*-]\s+(.+)/g, (_m, p1, p2) => p1 + "• " + p2)`
(chat.js line 42). -/
def bulletScan (atStart : Bool) (cs : List Char) : List Char :=
  match cs with
  | [] => []
  | c :: rest =>
    match h : tryMatchAt atStart (c :: rest) with
    | some (rep, rest') => rep ++ bulletScan false rest'
    | none => c :: bulletScan false rest
termination_by cs.length
decreasing_by
  · have hback : ∀ (w : List Char) (p : List Char × List Char),
        backWS w = some p → p.2.length ≤ w.length := by
      intro w p h2
      unfold backWS at h2
      split at h2
      · exact absurd h2 (by simp)
      · split at h2
        · exact absurd h2 (by simp)
        · cases h2
          simp
          have h3 : (w.reverse.takeWhile (fun c2 => c2 = '\n')).length ≤ w.reverse.length :=
            (List.takeWhile_sublist _).length_le
          rw [List.length_reverse] at h3
          simpa using h3
    have hm : ∀ (cs : List Char) (p : List Char × List Char),
        matchAfterP1 cs = some p → p.2.length < cs.length := by
      intro cs p h2
      cases cs with
      | nil => simp [matchAfterP1] at h2
      | cons m cs2 =>
        simp only [matchAfterP1] at h2
        split at h2
        · split at h2
          · exact absurd h2 (by simp)
          · split at h2
            · have h1 := hback _ _ h2
              have hx : (cs2.takeWhile jsWS).length ≤ cs2.length :=
                (List.takeWhile_sublist _).length_le
              simp
              omega
            · cases h2
              have h1 : ((cs2.dropWhile jsWS).dropWhile (fun c3 => c3 ≠ '\n')).length ≤
                  (cs2.dropWhile jsWS).length := (List.dropWhile_sublist _).length_le
              have hx : (cs2.dropWhile jsWS).length ≤ cs2.length :=
                (List.dropWhile_sublist _).length_le
              simp at h1 hx ⊢
              omega
        · exact absurd h2 (by simp)
    have ht : ∀ (b : Bool) (cs : List Char) (p : List Char × List Char),
        tryMatchAt b cs = some p → p.2.length < cs.length := by
      intro b cs p h2
      unfold tryMatchAt at h2
      split at h2
      · next r heq =>
        split at heq
        · cases h2
          exact hm _ _ heq
        · exact absurd heq (by simp)
      · next heq =>
        split at h2
        · next c2 cs2 =>
          split at h2
          · rcases hq : matchAfterP1 cs2 with _ | q
            · rw [hq] at h2; simp at h2
            · rw [hq] at h2
              simp at h2
              have := hm _ _ hq
              cases h2
              simp
              omega
          · exact absurd h2 (by simp)
        · exact absurd h2 (by simp)
    have := ht _ _ _ h
    simpa using this
  · simp

/-- The replacement `/\n/g → "<br>"` (chat.js line 43). -/
def brPass : List Char → List Char
  | [] => []
  | c :: t => (if c = '\n' then ['<', 'b', 'r', '>'] else [c]) ++ brPass t

/-- `liteMarkdown` (chat.js lines 38-45): escape `&<>`, rewrite
`**bold**` spans, rewrite bullet lines, rewrite newlines to `<br>`,
in that order. -/
def liteMarkdown (s : String) : String :=
  String.mk (brPass (bulletScan true (boldScan (escapeHTML s.data))))

/-- A chat turn `{ role, content }` (chat.js line 17 and the pushes in
`send`). -/
structure Message where
  role : String
  content : String
deriving DecidableEq, Repr

/-- The greeting seeded into `state.messages` at startup
(chat.js lines 15-20). -/
def greeting : Message :=
  { role := "assistant"
    content := "Halo! Saya **CCCC.AI**. Tanyakan apa pun tentang CC Cup XL (cccup.id)." }

/-- The user message pushed at chat.js line 78. -/
def userMsg (t : String) : Message :=
  { role := "user", content := t }

/-- The mutable client state: `state.messages`, `state.loading`
(chat.js lines 15-20) together with the text box value
`elInput.value`. -/
structure UIState where
  messages : List Message
  loading : Bool
  input : String
deriving DecidableEq, Repr

/-- `choices[0].message` of an OpenAI-style response body. -/
structure ChoiceMsg where
  content : Option String
deriving DecidableEq, Repr

/-- One element of the `choices` array of a response body. -/
structure Choice where
  message : Option ChoiceMsg
deriving DecidableEq, Repr

/-- The parsed JSON response body, restricted to the fields `send`
reads: a top-level `content` string and an OpenAI-style
`choices[0].message.content` string, each possibly absent. -/
structure RespBody where
  content : Option String
  choices : Option (List Choice)
deriving DecidableEq, Repr

/-- Outcome of the network exchange in `send`: a transport error
(fetch rejects), a non-2xx status (`!resp.ok`, thrown at line 96), a
JSON parse failure (`resp.json()` throws), or a parsed 2xx body. -/
inductive NetOutcome where
  | netError
  | httpError
  | jsonError
  | success (body : RespBody)
deriving DecidableEq, Repr

/-- `true` for every outcome that ends in the `catch` block. -/
def NetOutcome.isFail : NetOutcome → Bool
  | .success _ => false
  | _ => true

/-- JS truthiness filter for an optional string: `undefined` and `""`
are falsy, every other string is truthy. -/
def strTruthy : Option String → Option String
  | some s => if s = "" then none else some s
  | none => none

/-- The optional chain `data?.choices?.[0]?.message?.content`
(chat.js line 99). -/
def choicesContent (b : RespBody) : Option String :=
  ((b.choices.bind List.head?).bind Choice.message).bind ChoiceMsg.content

/-- The fallback notice for a body with no usable content
(chat.js line 100). -/
def emptyNotice : String := "Maaf, respons kosong."

/-- The localized error message pushed in the `catch` block
(chat.js line 106). -/
def errorNotice : String := "Maaf, terjadi kesalahan saat menghubungi server."

/-- `data?.content || data?.choices?.[0]?.message?.content ||
"Maaf, respons kosong."` (chat.js lines 98-100): JS `||` takes the
first truthy operand, so an empty string falls through. -/
def extractAnswer (b : RespBody) : String :=
  match strTruthy b.content with
  | some s => s
  | none =>
    match strTruthy (choicesContent b) with
    | some s => s
    | none => emptyNotice

/-- The assistant message appended when the exchange settles: the
`try` push on success (line 101), the `catch` push otherwise
(lines 104-107). -/
def outcomeMessage : NetOutcome → Message
  | .success b => { role := "assistant", content := extractAnswer b }
  | _ => { role := "assistant", content := errorNotice }

/-- JS `Array.prototype.slice(-n)`: the last `n` elements (all of
them when the list is shorter). -/
def lastN (n : Nat) (l : List Message) : List Message :=
  l.drop (l.length - n)

/-- The request body computed at lines 88-89:
`state.messages.slice(1)` (omit the seeded greeting) then
`slice(-12)` (keep only the last 12 messages). -/
def requestBody (msgs : List Message) : List Message :=
  lastN 12 (msgs.drop 1)

/-- A JS number that is either NaN or an integer (the values
`Number(window.INPUT_LIMIT || 350)` takes for the configurations the
spec describes). -/
inductive JSNum where
  | nan
  | int (i : Int)
deriving DecidableEq, Repr

/-- Classification of the configuration global `window.INPUT_LIMIT`
by the two attributes line 4 consumes: falsiness (for `|| 350`) and
the value of `Number(...)`.  `numStr n` stands for a non-empty string
that `Number` parses as the integer `n`; `nonNumStr` for a non-empty
string (or other truthy non-numeric value) that `Number` maps to
NaN. -/
inductive GlobalVal where
  | undef
  | nanVal
  | numI (n : Int)
  | emptyStr
  | numStr (n : Int)
  | nonNumStr
deriving DecidableEq, Repr

/-- JS falsiness of a `GlobalVal`. -/
def jsFalsy : GlobalVal → Bool
  | .undef => true
  | .nanVal => true
  | .emptyStr => true
  | .numI n => n = 0
  | .numStr _ => false
  | .nonNumStr => false

/-- JS `Number(...)` on a `GlobalVal`. -/
def toNumber : GlobalVal → JSNum
  | .undef => .nan
  | .nanVal => .nan
  | .emptyStr => .int 0
  | .numI n => .int n
  | .numStr n => .int n
  | .nonNumStr => .nan

/-- `const INPUT_LIMIT = Number(window.INPUT_LIMIT || 350)`
(chat.js line 4). -/
def INPUT_LIMIT (w : GlobalVal) : JSNum :=
  toNumber (if jsFalsy w then .numI 350 else w)

/-- The comparison `elInput.value.length > INPUT_LIMIT`
(chat.js line 62): every comparison with NaN is false. -/
def jsGtLen (n : Nat) : JSNum → Bool
  | .nan => false
  | .int i => (n : Int) > i

/-- JS `String.prototype.slice(0, e)` for a numeric `e`: NaN converts
to 0; a negative end counts from the end of the string. -/
def jsSlice0 (v : String) : JSNum → String
  | .nan => ""
  | .int i =>
    if i < 0 then String.mk (v.data.take ((v.length : Int) + i).toNat)
    else String.mk (v.data.take i.toNat)

/-- The truncation in `updateCounter` (chat.js line 62):
`if (value.length > INPUT_LIMIT) value = value.slice(0, INPUT_LIMIT)`. -/
def truncVal (v : String) (lim : JSNum) : String :=
  if jsGtLen v.length lim then jsSlice0 v lim else v

/-- The text written to the counter element (chat.js line 63). -/
def counterText (v : String) (lim : JSNum) : String :=
  toString v.length ++ " / " ++ (match lim with
    | .nan => "NaN"
    | .int i => toString i) ++ " characters"

/-- `updateCounter` (chat.js lines 60-65): truncate the input value to
the limit, then render `"N / limit characters"` from the (possibly
truncated) value.  Returns the new input value and the counter text. -/
def updateCounter (v : String) (lim : JSNum) : String × String :=
  let v' := truncVal v lim
  (v', counterText v' lim)

/-- JS `String.prototype.trim` (used at chat.js line 75): strip
leading and trailing whitespace. -/
def jsTrim (s : String) : String :=
  String.mk (((s.data.dropWhile jsWS).reverse.dropWhile jsWS).reverse)

/-- The synchronous prefix of `send` (chat.js lines 74-94), up to the
`await fetch`: guard (`if (!text || state.loading) return`), push of
the user message, clearing of the input box (with its `updateCounter`
call), `loading = true`, and the computation of the request body.
Returns the new state and the request issued, if any. -/
def sendBegin (lim : JSNum) (st : UIState) : UIState × Option (List Message) :=
  let text := jsTrim st.input
  if text = "" || st.loading then (st, none)
  else
    let msgs1 := st.messages ++ [{ role := "user", content := text }]
    ({ messages := msgs1, loading := true, input := truncVal "" lim },
     some (requestBody msgs1))

/-- The continuation of `send` after the exchange settles
(chat.js lines 96-111): push the assistant message determined by the
outcome, then the `finally` block sets `loading = false`. -/
def sendSettle (st : UIState) (net : NetOutcome) : UIState :=
  { st with messages := st.messages ++ [outcomeMessage net], loading := false }

/-- The whole of `send` (chat.js lines 74-112) for a given network
outcome: `sendBegin` followed, when a request was issued, by
`sendSettle`.  Returns the final state and the request body sent. -/
def send (lim : JSNum) (st : UIState) (net : NetOutcome) : UIState × Option (List Message) :=
  match sendBegin lim st with
  | (_, none) => (st, none)
  | (st1, some req) => (sendSettle st1 net, some req)

/-- The UI events wired at chat.js lines 114-138, plus the settling of
an outstanding request.  `edit s` is the user changing the text box to
`s` (the `input` listener then runs `updateCounter`); `submit` is a
click on send or Enter; `settle net` is the resumption of a suspended
`send` with outcome `net`; `toggleTheme` is a click on the theme
button; `render` repaints the transcript. -/
inductive Ev where
  | edit (s : String)
  | submit
  | settle (net : NetOutcome)
  | toggleTheme
  | render
deriving DecidableEq, Repr

/-- The whole page state: UI state, the multiset of in-flight
requests, the `theme-dark` class on the body, and the `theme` key of
local storage. -/
structure Sys where
  ui : UIState
  pending : List (List Message)
  dark : Bool
  stored : Option String
deriving DecidableEq, Repr

/-- One step of the event loop.  `submit` runs the synchronous prefix
of `send` and suspends (recording the in-flight request); `settle`
resumes the oldest suspended `send`; `edit` runs the `input` listener
(which calls `updateCounter`); `toggleTheme` is the listener at
lines 133-138; `render` does not touch the state. -/
def step (lim : JSNum) (s : Sys) : Ev → Sys
  | .edit t => { s with ui := { s.ui with input := (updateCounter t lim).1 } }
  | .submit =>
    match sendBegin lim s.ui with
    | (ui', some req) => { s with ui := ui', pending := s.pending ++ [req] }
    | (_, none) => s
  | .settle net =>
    match s.pending with
    | [] => s
    | _ :: rest => { s with ui := sendSettle s.ui net, pending := rest }
  | .toggleTheme =>
    { s with dark := !s.dark, stored := some (if !s.dark then "dark" else "light") }
  | .render => s

/-- The page state right after the script runs (chat.js lines 15-20,
125-132): seeded greeting, not loading, empty input, no request in
flight, dark theme iff local storage holds `"dark"`. -/
def initSys (stored0 : Option String) : Sys :=
  { ui := { messages := [greeting], loading := false, input := "" }
    pending := []
    dark := stored0 = some "dark"
    stored := stored0 }

/-- The states the event loop can reach from startup. -/
inductive Reach (lim : JSNum) : Sys → Prop
  | init (stored0 : Option String) : Reach lim (initSys stored0)
  | step {s : Sys} (e : Ev) : Reach lim s → Reach lim (step lim s e)

/-- Fixture: the startup transcript with `"Hello"` typed in the box. -/
def stHello : UIState :=
  { messages := [greeting], loading := false, input := "Hello" }

/-- Fixture: same transcript while a request is in flight. -/
def stBusy : UIState :=
  { messages := [greeting], loading := true, input := "Hello" }

/-- Fixture: a transcript with 13 non-greeting messages and more text
typed. -/
def stLong : UIState :=
  { messages := greeting :: List.replicate 13 { role := "user", content := "x" }
    loading := false
    input := "next" }

/-- Fixture: a 2xx body with a top-level `content` string. -/
def bodyHi : RespBody :=
  { content := some "Hi there", choices := none }

/-- Fixture: a 2xx body whose `content` field is present but is the
empty string (a falsy value for JS `||`). -/
def bodyEmptyStr : RespBody :=
  { content := some "", choices := none }

/-- Adjacent-character pairs that cannot open a `**` bold span. -/
def StarOk (a b : Char) : Prop :=
  ¬(a = '*' ∧ b = '*')

instance : DecidableRel StarOk := fun a b => by
  unfold StarOk
  infer_instance

/-- Characters that none of the three `liteMarkdown` rewrites touch:
not HTML-escaped, not a `*`, not a newline. -/
def plainChar (c : Char) : Bool :=
  !(c = '&' || c = '<' || c = '>' || c = '*' || c = '\n')

/-- One input line, classified for the linewise description of the
bullet pass: `bullet m w content` is a marker, a whitespace run, then
content; `bare m content` is a marker followed directly by non-blank
content; `plain content` starts with no marker. -/
inductive LineSpec where
  | bullet (m : Char) (w : List Char) (content : List Char)
  | bare (m : Char) (content : List Char)
  | plain (content : List Char)
deriving DecidableEq, Repr

/-- Well-formedness of a `LineSpec` as one line of input: contents
contain only untouched characters, whitespace runs are newline-free
whitespace, and heads are as the classification demands. -/
def LineSpec.good : LineSpec → Bool
  | .bullet m w content =>
    isMarker m && !w.isEmpty && w.all (fun c => jsWS c && c ≠ '\n') &&
    (match content with
     | [] => false
     | c :: cs => !jsWS c && plainChar c && cs.all plainChar)
  | .bare m content =>
    isMarker m &&
    (match content with
     | [] => false
     | c :: cs => !jsWS c && plainChar c && cs.all plainChar)
  | .plain content =>
    !content.isEmpty && content.all plainChar &&
    (match content with
     | c :: _ => !isMarker c && c ≠ '\n'
     | [] => true)

/-- The text of a `LineSpec`. -/
def LineSpec.render : LineSpec → List Char
  | .bullet m w content => m :: (w ++ content)
  | .bare m content => m :: content
  | .plain content => content

/-- What the bullet pass leaves of a `LineSpec`: a bullet line's
marker and whitespace become `• `; other lines are untouched. -/
def LineSpec.out : LineSpec → List Char
  | .bullet _ _ content => '•' :: ' ' :: content
  | .bare m content => m :: content
  | .plain content => content

/-- Join lines with newlines. -/
def joinNL : List (List Char) → List Char
  | [] => []
  | [l] => l
  | l :: ls => l ++ '\n' :: joinNL ls

/-- Join lines with `<br>`. -/
def joinBR : List (List Char) → List Char
  | [] => []
  | [l] => l
  | l :: ls => l ++ '<' :: 'b' :: 'r' :: '>' :: joinBR ls

/-- C1: on a submit of valid text, the request body is the message
list after the push of the user turn, minus its first element (the
seeded greeting), cut to its last 12 entries; when more than 12
non-greeting messages exist the body has exactly 12 entries; the
transcript itself keeps every message. -/
theorem send_history_truncation (lim : JSNum) (st : UIState) (net : NetOutcome)
    (h1 : st.loading = false) (h2 : jsTrim st.input ≠ "") :
    (send lim st net).2 =
      some (lastN 12 ((st.messages ++ [userMsg (jsTrim st.input)]).drop 1))
    ∧ (12 < ((st.messages ++ [userMsg (jsTrim st.input)]).drop 1).length →
        (lastN 12 ((st.messages ++ [userMsg (jsTrim st.input)]).drop 1)).length = 12)
    ∧ (st.messages ++ [userMsg (jsTrim st.input)]) <+: (send lim st net).1.messages := by
  refine ⟨?_, ?_, ?_⟩
  · simp [send, sendBegin, h1, h2, requestBody, userMsg]
  · intro hlen
    simp only [lastN, List.length_drop] at hlen ⊢
    omega
  · have hmsg : (send lim st net).1.messages =
        (st.messages ++ [userMsg (jsTrim st.input)]) ++ [outcomeMessage net] := by
      simp [send, sendBegin, sendSettle, h1, h2, userMsg]
    rw [hmsg]
    exact List.prefix_append _ _

/-- Witness for C1: with 13 non-greeting messages in the transcript
and `"next"` submitted, the history (greeting excluded) has 14 > 12
entries and the request body has exactly 12. -/
theorem send_history_truncation_witness :
    12 < ((stLong.messages ++ [userMsg (jsTrim stLong.input)]).drop 1).length
    ∧ (send (JSNum.int 350) stLong .netError).2 =
        some (lastN 12 ((stLong.messages ++ [userMsg (jsTrim stLong.input)]).drop 1))
    ∧ (lastN 12 ((stLong.messages ++ [userMsg (jsTrim stLong.input)]).drop 1)).length = 12 := by
  have h := send_history_truncation (JSNum.int 350) stLong .netError rfl (by decide)
  exact ⟨by decide, h.1, h.2.1 (by decide)⟩

/-- C2, counterexample: the claim's "fixed notice if and only if both
fields are absent" fails.  For the body `{"content": ""}` the
`content` field is present, yet JS `||` treats the empty string as
falsy, so the appended assistant message is the "empty response"
notice. -/
theorem send_success_empty_content_cex :
    (send (JSNum.int 350) stHello (.success bodyEmptyStr)).1.messages =
      [greeting, userMsg "Hello", { role := "assistant", content := emptyNotice }]
    ∧ bodyEmptyStr.content ≠ none := by
  exact ⟨by decide, by decide⟩

/-- C2 as amended: on a 2xx response, `send` appends the user turn and
exactly one assistant message whose content is the body's `content`
field if that is a non-empty string, else `choices[0].message.content`
if that is a non-empty string, else the fixed "empty response" notice
(the fallback fires precisely when both fields are absent or empty),
and `loading` ends false. -/
theorem send_success_appends (lim : JSNum) (st : UIState) (b : RespBody)
    (h1 : st.loading = false) (h2 : jsTrim st.input ≠ "") :
    (send lim st (.success b)).1.messages =
      st.messages ++ [userMsg (jsTrim st.input),
                      { role := "assistant", content := extractAnswer b }]
    ∧ (send lim st (.success b)).1.loading = false
    ∧ (strTruthy b.content = none → strTruthy (choicesContent b) = none →
        extractAnswer b = emptyNotice)
    ∧ (∀ s, strTruthy b.content = some s → extractAnswer b = s)
    ∧ (∀ s, strTruthy b.content = none → strTruthy (choicesContent b) = some s →
        extractAnswer b = s) := by
  refine ⟨?_, ?_, ?_, ?_, ?_⟩
  · simp [send, sendBegin, sendSettle, outcomeMessage, h1, h2, userMsg]
  · simp [send, sendBegin, sendSettle, h1, h2]
  · intro ha hb; simp [extractAnswer, ha, hb]
  · intro s hs; simp [extractAnswer, hs]
  · intro s ha hs; simp [extractAnswer, ha, hs]

/-- Witness for C2 (amended), the spec's success scenario: transcript
`[greeting]`, user submits `"Hello"`, server answers
`{"content": "Hi there"}`. -/
theorem send_success_appends_witness :
    (send (JSNum.int 350) stHello (.success bodyHi)).1.messages =
      [greeting, userMsg "Hello", { role := "assistant", content := "Hi there" }]
    ∧ (send (JSNum.int 350) stHello (.success bodyHi)).1.loading = false := by
  have h := send_success_appends (JSNum.int 350) stHello bodyHi rfl (by decide)
  exact ⟨h.1.trans (by decide), h.2.1⟩

/-- C3: when the exchange fails — transport error, non-2xx status, or
malformed JSON, all reaching the same `catch` block — `send` appends
the user turn and exactly one assistant message with the fixed
localized error text, and `loading` ends false. -/
theorem send_failure_appends (lim : JSNum) (st : UIState) (net : NetOutcome)
    (hf : net.isFail = true) (h1 : st.loading = false) (h2 : jsTrim st.input ≠ "") :
    (send lim st net).1.messages =
      st.messages ++ [userMsg (jsTrim st.input),
                      { role := "assistant", content := errorNotice }]
    ∧ (send lim st net).1.loading = false := by
  have ho : outcomeMessage net = { role := "assistant", content := errorNotice } := by
    cases net <;> simp [outcomeMessage, NetOutcome.isFail] at hf ⊢
  constructor
  · simp [send, sendBegin, sendSettle, h1, h2, ho, userMsg]
  · simp [send, sendBegin, sendSettle, h1, h2]

/-- Witness for C3: a simulated network failure after submitting
`"Hello"` from the startup transcript. -/
theorem send_failure_appends_witness :
    (send (JSNum.int 350) stHello .netError).1.messages =
      [greeting, userMsg "Hello", { role := "assistant", content := errorNotice }]
    ∧ (send (JSNum.int 350) stHello .netError).1.loading = false := by
  have h := send_failure_appends (JSNum.int 350) stHello .netError rfl rfl (by decide)
  exact ⟨h.1.trans (by decide), h.2⟩

/-- C4: submitting while `loading` is true, or with text that trims to
empty, returns the state unchanged and issues no request; otherwise
`send` issues exactly one request (with the truncated history as
body). -/
theorem send_guard (lim : JSNum) (st : UIState) (net : NetOutcome) :
    ((st.loading = true ∨ jsTrim st.input = "") → send lim st net = (st, none))
    ∧ (st.loading = false → jsTrim st.input ≠ "" →
        (send lim st net).2 =
          some (requestBody (st.messages ++ [userMsg (jsTrim st.input)]))) := by
  constructor
  · rintro (h | h) <;> simp [send, sendBegin, h]
  · intro h1 h2
    simp [send, sendBegin, h1, h2, userMsg]

/-- Witness for C4: a submit during an in-flight request is a no-op;
a valid submit issues one request. -/
theorem send_guard_witness :
    send (JSNum.int 350) stBusy .netError = (stBusy, none)
    ∧ (send (JSNum.int 350) stHello .netError).2 =
        some (requestBody (stHello.messages ++ [userMsg (jsTrim stHello.input)])) := by
  exact ⟨(send_guard _ stBusy _).1 (Or.inl rfl), (send_guard _ stHello _).2 rfl (by decide)⟩

/-- C7: with a nonnegative integer limit (350 by default, overridable
through `window.INPUT_LIMIT`), `updateCounter` cuts an over-long input
to exactly the limit, leaves inputs at or under the limit unchanged,
and displays the resulting length over the limit. -/
theorem updateCounter_limit (g : GlobalVal) (i : Int) (v : String)
    (hg : INPUT_LIMIT g = .int i) (hi : 0 ≤ i) :
    (i < (v.length : Int) →
      (updateCounter v (INPUT_LIMIT g)).1.data = v.data.take i.toNat
      ∧ ((updateCounter v (INPUT_LIMIT g)).1.data.length : Int) = i)
    ∧ ((v.length : Int) ≤ i → (updateCounter v (INPUT_LIMIT g)).1 = v)
    ∧ (updateCounter v (INPUT_LIMIT g)).2 =
        toString (updateCounter v (INPUT_LIMIT g)).1.length ++ " / " ++ toString i ++
          " characters"
    ∧ INPUT_LIMIT GlobalVal.undef = .int 350 := by
  have hvlen : v.length = v.data.length := rfl
  rw [hg]
  refine ⟨?_, ?_, rfl, rfl⟩
  · intro hlt
    have hgt : jsGtLen v.length (.int i) = true := by
      simp [jsGtLen]
      omega
    have hnn : ¬ i < 0 := by omega
    have hd : (updateCounter v (JSNum.int i)).1.data = v.data.take i.toNat := by
      simp [updateCounter, truncVal, hgt, jsSlice0, hnn]
    refine ⟨hd, ?_⟩
    rw [hd, List.length_take]
    rw [hvlen] at hlt
    omega
  · intro hle
    have hgt : jsGtLen v.length (.int i) = false := by
      simp [jsGtLen]
      omega
    simp [updateCounter, truncVal, hgt]

set_option maxRecDepth 10000 in
/-- Witness for C7: with the default limit and a 351-character input,
the stored value ends up exactly 350 characters. -/
theorem updateCounter_limit_witness :
    (350 : Int) < ((String.mk (List.replicate 351 'a')).length : Int)
    ∧ (updateCounter (String.mk (List.replicate 351 'a')) (INPUT_LIMIT .undef)).1.data =
        (String.mk (List.replicate 351 'a')).data.take (350 : Int).toNat
    ∧ ((updateCounter (String.mk (List.replicate 351 'a'))
        (INPUT_LIMIT .undef)).1.data.length : Int) = 350 := by
  have h := updateCounter_limit .undef 350 (String.mk (List.replicate 351 'a')) rfl
    (by decide)
  have h2 := h.1 (by decide)
  exact ⟨by decide, h2.1, h2.2⟩

/-- C10: the effective limit is `Number(INPUT_LIMIT || 350)` — any
falsy configured value (absent, NaN, 0, empty string) yields 350,
while a truthy non-numeric value yields NaN, in which case
`length > NaN` is always false and `updateCounter` never truncates. -/
theorem inputLimit_nan_no_truncation :
    (∀ g, jsFalsy g = true → INPUT_LIMIT g = .int 350)
    ∧ (∀ (g : GlobalVal) (v : String), INPUT_LIMIT g = .nan →
        updateCounter v (INPUT_LIMIT g) = (v, counterText v .nan))
    ∧ INPUT_LIMIT .nonNumStr = .nan := by
  refine ⟨?_, ?_, rfl⟩
  · intro g hg
    simp [INPUT_LIMIT, hg, toNumber]
  · intro g v hg
    rw [hg]
    simp [updateCounter, truncVal, jsGtLen]

/-- Witness for C10: the falsy global `0` gives limit 350; a
non-numeric global gives NaN and `"abc"` is left untouched. -/
theorem inputLimit_nan_no_truncation_witness :
    INPUT_LIMIT (GlobalVal.numI 0) = .int 350
    ∧ updateCounter "abc" (INPUT_LIMIT .nonNumStr) = ("abc", counterText "abc" .nan) := by
  exact ⟨inputLimit_nan_no_truncation.1 _ rfl,
    inputLimit_nan_no_truncation.2.1 .nonNumStr "abc" rfl⟩

/-- Case analysis of `sendBegin`: either the guard fires and nothing
happens, or the guard passes and the user turn is pushed, the box is
cleared, `loading` is set, and the truncated history is issued. -/
theorem sendBegin_cases (lim : JSNum) (st : UIState) :
    sendBegin lim st = (st, none)
    ∨ (st.loading = false ∧ jsTrim st.input ≠ ""
       ∧ sendBegin lim st =
          ({ messages := st.messages ++ [userMsg (jsTrim st.input)],
             loading := true,
             input := truncVal "" lim },
           some (requestBody (st.messages ++ [userMsg (jsTrim st.input)])))) := by
  by_cases h1 : jsTrim st.input = ""
  · left
    simp [sendBegin, h1]
  · by_cases h2 : st.loading
    · left
      simp [sendBegin, h2]
    · right
      refine ⟨by simpa using h2, h1, ?_⟩
      simp [sendBegin, h1, h2, userMsg]

/-- Every event leaves the existing transcript in place: the old
message list is a prefix of the new one. -/
theorem step_messages_extend (lim : JSNum) (s : Sys) (e : Ev) :
    s.ui.messages <+: (step lim s e).ui.messages := by
  cases e with
  | edit t => simp [step]
  | submit =>
    rcases sendBegin_cases lim s.ui with h | ⟨h1, h2, h⟩
    · simp [step, h]
    · simp [step, h]
  | settle net =>
    cases hp : s.pending with
    | nil => simp [step, hp]
    | cons p rest => simp [step, hp, sendSettle]
  | toggleTheme => simp [step]
  | render => simp [step]

/-- In every reachable state the seeded greeting is still the first
message. -/
theorem reach_head_greeting (lim : JSNum) (s : Sys) (h : Reach lim s) :
    s.ui.messages.head? = some greeting := by
  induction h with
  | init s0 => simp [initSys]
  | @step s' e hr ih =>
    obtain ⟨t, ht⟩ := step_messages_extend lim s' e
    rw [← ht]
    cases hm : s'.ui.messages with
    | nil => rw [hm] at ih; simp at ih
    | cons a l =>
      rw [hm] at ih
      simp at ih
      simp [ih]

/-- Invariant of the event loop: `loading` is true exactly when a
request is in flight, and never more than one is. -/
theorem reach_loading_pending (lim : JSNum) (s : Sys) (h : Reach lim s) :
    (s.ui.loading = true ↔ s.pending ≠ []) ∧ s.pending.length ≤ 1 := by
  induction h with
  | init s0 => simp [initSys]
  | @step s' e hr ih =>
    obtain ⟨hiff, hlen⟩ := ih
    cases e with
    | edit t => simpa [step] using ⟨hiff, hlen⟩
    | submit =>
      rcases sendBegin_cases lim s'.ui with h | ⟨h1, h2, h⟩
      · simpa [step, h] using ⟨hiff, hlen⟩
      · have hemp : s'.pending = [] := by
          by_contra hne
          have := hiff.mpr hne
          rw [h1] at this
          exact absurd this (by simp)
        simp [step, h, hemp]
    | settle net =>
      cases hp : s'.pending with
      | nil =>
        have hstep : step lim s' (.settle net) = s' := by simp [step, hp]
        rw [hstep]
        exact ⟨hiff, hlen⟩
      | cons p rest =>
        have hrest : rest = [] := by
          rw [hp] at hlen
          simpa using hlen
        simp [step, hp, sendSettle, hrest]
    | toggleTheme => simpa [step] using ⟨hiff, hlen⟩
    | render => simpa [step] using ⟨hiff, hlen⟩

/-- C8: in every reachable state `loading` holds exactly while a
request is outstanding, at most one request is ever in flight, the
flag goes false→true only on a submit of valid (non-empty trimmed)
text, and true→false only when the outstanding request settles. -/
theorem loading_flag_protocol (lim : JSNum) (s : Sys) (h : Reach lim s) (e : Ev) :
    (s.ui.loading = true ↔ s.pending ≠ [])
    ∧ s.pending.length ≤ 1
    ∧ (s.ui.loading = false → (step lim s e).ui.loading = true →
        e = .submit ∧ jsTrim s.ui.input ≠ "")
    ∧ (s.ui.loading = true → (step lim s e).ui.loading = false →
        (∃ net, e = .settle net) ∧ s.pending ≠ []) := by
  obtain ⟨hiff, hlen⟩ := reach_loading_pending lim s h
  refine ⟨hiff, hlen, ?_, ?_⟩
  · intro h0 h1
    cases e with
    | edit t =>
      simp [step] at h1
      exact absurd h1 (by simp [h0])
    | submit =>
      refine ⟨rfl, ?_⟩
      intro htr
      have hsb : sendBegin lim s.ui = (s.ui, none) := by
        simp [sendBegin, htr]
      simp [step, hsb] at h1
      exact absurd h1 (by simp [h0])
    | settle net =>
      cases hp : s.pending with
      | nil => simp [step, hp] at h1; exact absurd h1 (by simp [h0])
      | cons p rest => simp [step, hp, sendSettle] at h1
    | toggleTheme =>
      simp [step] at h1
      exact absurd h1 (by simp [h0])
    | render =>
      simp [step] at h1
      exact absurd h1 (by simp [h0])
  · intro h0 h1
    cases e with
    | edit t =>
      simp [step] at h1
      exact absurd h1 (by simp [h0])
    | submit =>
      have hsb : sendBegin lim s.ui = (s.ui, none) := by
        simp [sendBegin, h0]
      simp [step, hsb] at h1
      exact absurd h1 (by simp [h0])
    | settle net => exact ⟨⟨net, rfl⟩, hiff.mp h0⟩
    | toggleTheme =>
      simp [step] at h1
      exact absurd h1 (by simp [h0])
    | render =>
      simp [step] at h1
      exact absurd h1 (by simp [h0])

/-- Witness for C8: the startup state is reachable; there `loading`
is false, nothing is pending, and a `render` step cannot flip the
flag. -/
theorem loading_flag_protocol_witness :
    ((initSys none).ui.loading = true ↔ (initSys none).pending ≠ [])
    ∧ (initSys none).pending.length ≤ 1
    ∧ ((initSys none).ui.loading = false →
        (step (JSNum.int 350) (initSys none) .render).ui.loading = true →
        Ev.render = Ev.submit ∧ jsTrim (initSys none).ui.input ≠ "")
    ∧ ((initSys none).ui.loading = true →
        (step (JSNum.int 350) (initSys none) .render).ui.loading = false →
        (∃ net, Ev.render = Ev.settle net) ∧ (initSys none).pending ≠ []) :=
  loading_flag_protocol (JSNum.int 350) (initSys none) (Reach.init none) .render

/-- C9: the transcript is append-only — every event leaves the
existing messages unchanged, in order, as a prefix of the new list —
and the seeded greeting stays the first message throughout the
session. -/
theorem transcript_append_only (lim : JSNum) (s : Sys) (e : Ev) (h : Reach lim s) :
    s.ui.messages <+: (step lim s e).ui.messages
    ∧ s.ui.messages.head? = some greeting
    ∧ (step lim s e).ui.messages.head? = some greeting :=
  ⟨step_messages_extend lim s e, reach_head_greeting lim s h,
   reach_head_greeting lim _ (Reach.step e h)⟩

/-- Witness for C9: an edit step from the startup state (with a dark
stored theme) keeps the transcript and its leading greeting. -/
theorem transcript_append_only_witness :
    (initSys (some "dark")).ui.messages <+:
      (step (JSNum.int 350) (initSys (some "dark")) (.edit "x")).ui.messages
    ∧ (initSys (some "dark")).ui.messages.head? = some greeting
    ∧ (step (JSNum.int 350) (initSys (some "dark")) (.edit "x")).ui.messages.head? =
        some greeting :=
  transcript_append_only (JSNum.int 350) (initSys (some "dark")) (.edit "x")
    (Reach.init (some "dark"))

theorem boldScan_nil : boldScan [] = [] := by
  rw [boldScan]

theorem boldScan_cons_none {c : Char} {rest : List Char}
    (h : boldTryAt (c :: rest) = none) : boldScan (c :: rest) = c :: boldScan rest := by
  rw [boldScan, h]

theorem boldScan_cons_some {c : Char} {rest rep rest' : List Char}
    (h : boldTryAt (c :: rest) = some (rep, rest')) :
    boldScan (c :: rest) = rep ++ boldScan rest' := by
  rw [boldScan, h]

theorem bulletScan_nil (b : Bool) : bulletScan b [] = [] := by
  rw [bulletScan]

theorem bulletScan_cons_none {b : Bool} {c : Char} {rest : List Char}
    (h : tryMatchAt b (c :: rest) = none) :
    bulletScan b (c :: rest) = c :: bulletScan false rest := by
  rw [bulletScan, h]

theorem bulletScan_cons_some {b : Bool} {c : Char} {rest rep rest' : List Char}
    (h : tryMatchAt b (c :: rest) = some (rep, rest')) :
    bulletScan b (c :: rest) = rep ++ bulletScan false rest' := by
  rw [bulletScan, h]

/-- A string with no two adjacent stars passes the bold rewrite
unchanged. -/
theorem boldScan_id_of_chain {cs : List Char} (h : List.Chain' StarOk cs) :
    boldScan cs = cs := by
  induction cs with
  | nil => exact boldScan_nil
  | cons c rest ih =>
    have hnone : boldTryAt (c :: rest) = none := by
      cases rest with
      | nil => rfl
      | cons c2 rest2 =>
        have hR : StarOk c c2 := (List.chain'_cons.mp h).1
        rcases Decidable.em (c = '*') with h1 | h1
        · rcases Decidable.em (c2 = '*') with h2 | h2
          · exact absurd ⟨h1, h2⟩ hR
          · simp [boldTryAt, h2]
        · simp [boldTryAt, h1]
    rw [boldScan_cons_none hnone, ih h.tail]

/-- A list whose tail has no star is adjacent-star free. -/
theorem chain'_starOk_of_tail {l : List Char} (h : ∀ b ∈ l.tail, b ≠ '*') :
    List.Chain' StarOk l := by
  induction l with
  | nil => simp
  | cons a t ih =>
    rw [List.chain'_cons']
    constructor
    · intro y hy
      intro hand
      exact h y (by
        cases t with
        | nil => simp at hy
        | cons b t2 => simp at hy; simp [hy]) hand.2
    · exact ih (fun b hb => h b (List.mem_of_mem_tail hb))

theorem escapeHTML_append (a b : List Char) :
    escapeHTML (a ++ b) = escapeHTML a ++ escapeHTML b := by
  induction a with
  | nil => rfl
  | cons c t ih => simp [escapeHTML, ih]

theorem escapeHTML_id {l : List Char}
    (h : ∀ c ∈ l, c ≠ '&' ∧ c ≠ '<' ∧ c ≠ '>') : escapeHTML l = l := by
  induction l with
  | nil => rfl
  | cons c t ih =>
    obtain ⟨h1, h2, h3⟩ := h c (by simp)
    simp only [escapeHTML, if_neg h1, if_neg h2, if_neg h3]
    rw [ih (fun c2 hc2 => h c2 (by simp [hc2]))]
    rfl

theorem brPass_append (a b : List Char) :
    brPass (a ++ b) = brPass a ++ brPass b := by
  induction a with
  | nil => rfl
  | cons c t ih => simp [brPass, ih]

theorem brPass_id {l : List Char} (h : ∀ c ∈ l, c ≠ '\n') : brPass l = l := by
  induction l with
  | nil => rfl
  | cons c t ih =>
    simp only [brPass, if_neg (h c (by simp))]
    rw [ih (fun c2 hc2 => h c2 (by simp [hc2]))]
    rfl

theorem takeWhile_append_eq {p : Char → Bool} {w r : List Char}
    (hw : ∀ c ∈ w, p c = true) (hr : ∀ c ∈ r.head?, p c = false) :
    (w ++ r).takeWhile p = w ∧ (w ++ r).dropWhile p = r := by
  induction w with
  | nil =>
    cases r with
    | nil => simp
    | cons c t =>
      have hc := hr c (by simp)
      simp [List.takeWhile_cons, List.dropWhile_cons, hc]
  | cons c t ih =>
    have hc := hw c (by simp)
    have iht := ih (fun c2 hc2 => hw c2 (by simp [hc2]))
    simp [List.takeWhile_cons, List.dropWhile_cons, hc, iht.1, iht.2]

theorem matchAfterP1_nil : matchAfterP1 [] = none := rfl

theorem matchAfterP1_no_marker {c : Char} {cs : List Char} (h : isMarker c = false) :
    matchAfterP1 (c :: cs) = none := by
  simp [matchAfterP1, h]

theorem matchAfterP1_bare {m : Char} {content r : List Char}
    (hm : isMarker m = true) (hcne : content ≠ [])
    (hc : ∀ c ∈ content.head?, jsWS c = false) :
    matchAfterP1 (m :: (content ++ r)) = none := by
  cases content with
  | nil => exact absurd rfl hcne
  | cons c cs =>
    have hcw := hc c (by simp)
    simp [matchAfterP1, hm, List.takeWhile_cons, hcw]

theorem matchAfterP1_bullet {m : Char} {w content r : List Char}
    (hm : isMarker m = true) (hw : w ≠ []) (hwall : ∀ c ∈ w, jsWS c = true)
    (hcne : content ≠ []) (hchead : ∀ c ∈ content.head?, jsWS c = false)
    (hcnl : ∀ c ∈ content, c ≠ '\n') (hr : ∀ c ∈ r.head?, c = '\n') :
    matchAfterP1 (m :: (w ++ content ++ r)) = some ('•' :: ' ' :: content, r) := by
  have hbound : ∀ c ∈ (content ++ r).head?, jsWS c = false := by
    cases content with
    | nil => exact absurd rfl hcne
    | cons c cs =>
      intro x hx
      simp at hx
      subst hx
      exact hchead c (by simp)
  obtain ⟨htake, hdrop⟩ := takeWhile_append_eq hwall hbound
  have hta : ∀ c ∈ content, (decide (c ≠ '\n')) = true := fun c hc => by
    simp [hcnl c hc]
  have htb : ∀ c ∈ r.head?, (decide (c ≠ '\n')) = false := fun c hc => by
    simp [hr c hc]
  obtain ⟨htake2, hdrop2⟩ := takeWhile_append_eq hta htb
  have hrne : content ++ r ≠ [] := by
    cases content with
    | nil => exact absurd rfl hcne
    | cons c cs => simp
  rw [List.append_assoc]
  simp only [matchAfterP1, hm, if_true, htake, hdrop, if_neg hw, if_neg hrne, htake2,
    hdrop2]

theorem tryMatchAt_false_not_nl {c : Char} {cs : List Char} (h : c ≠ '\n') :
    tryMatchAt false (c :: cs) = none := by
  simp [tryMatchAt, h]

theorem tryMatchAt_false_nl {cs : List Char} :
    tryMatchAt false ('\n' :: cs) =
      (matchAfterP1 cs).map (fun p => ('\n' :: p.1, p.2)) := by
  simp [tryMatchAt]

theorem tryMatchAt_true_some {cs : List Char} {r : List Char × List Char}
    (h : matchAfterP1 cs = some r) : tryMatchAt true cs = some r := by
  simp [tryMatchAt, h]

theorem tryMatchAt_true_none {c : Char} {cs : List Char}
    (h : matchAfterP1 (c :: cs) = none) (h2 : c ≠ '\n') :
    tryMatchAt true (c :: cs) = none := by
  simp [tryMatchAt, h, h2]

theorem bulletScan_skip {l r : List Char} (h : ∀ c ∈ l, c ≠ '\n') :
    bulletScan false (l ++ r) = l ++ bulletScan false r := by
  induction l with
  | nil => rfl
  | cons c t ih =>
    have hnone : tryMatchAt false (c :: (t ++ r)) = none :=
      tryMatchAt_false_not_nl (h c (by simp))
    rw [List.cons_append, bulletScan_cons_none hnone,
      ih (fun c2 hc2 => h c2 (by simp [hc2]))]
    rfl

theorem bulletScan_false_id {l : List Char} (h : ∀ c ∈ l, c ≠ '\n') :
    bulletScan false l = l := by
  have h2 := bulletScan_skip (r := []) h
  simpa [bulletScan_nil] using h2

theorem plainChar_spec {c : Char} (h : plainChar c = true) :
    c ≠ '&' ∧ c ≠ '<' ∧ c ≠ '>' ∧ c ≠ '*' ∧ c ≠ '\n' := by
  simp [plainChar] at h
  tauto

theorem jsWS_spec {c : Char} (h : jsWS c = true) :
    c ≠ '&' ∧ c ≠ '<' ∧ c ≠ '>' ∧ c ≠ '*' := by
  refine ⟨?_, ?_, ?_, ?_⟩ <;> intro he <;> subst he <;> exact absurd h (by decide)

theorem isMarker_spec {c : Char} (h : isMarker c = true) :
    c ≠ '&' ∧ c ≠ '<' ∧ c ≠ '>' ∧ c ≠ '\n' := by
  refine ⟨?_, ?_, ?_, ?_⟩ <;> intro he <;> subst he <;> exact absurd h (by decide)

theorem good_bullet_parts {m : Char} {w content : List Char}
    (h : LineSpec.good (.bullet m w content) = true) :
    isMarker m = true ∧ w ≠ [] ∧ (∀ c ∈ w, jsWS c = true ∧ c ≠ '\n')
    ∧ content ≠ [] ∧ (∀ c ∈ content.head?, jsWS c = false)
    ∧ (∀ c ∈ content, plainChar c = true) := by
  cases content with
  | nil => simp [LineSpec.good] at h
  | cons c cs =>
    simp [LineSpec.good] at h
    obtain ⟨⟨⟨h1, h2⟩, h3⟩, ⟨h4, h5⟩, h6⟩ := h
    refine ⟨h1, h2, h3, by simp, ?_, ?_⟩
    · intro x hx
      simp at hx
      subst hx
      exact h4
    · intro x hx
      simp at hx
      rcases hx with hx | hx
      · subst hx; exact h5
      · exact h6 x hx

theorem good_bare_parts {m : Char} {content : List Char}
    (h : LineSpec.good (.bare m content) = true) :
    isMarker m = true ∧ content ≠ [] ∧ (∀ c ∈ content.head?, jsWS c = false)
    ∧ (∀ c ∈ content, plainChar c = true) := by
  cases content with
  | nil => simp [LineSpec.good] at h
  | cons c cs =>
    simp [LineSpec.good] at h
    obtain ⟨h1, ⟨h4, h5⟩, h6⟩ := h
    refine ⟨h1, by simp, ?_, ?_⟩
    · intro x hx
      simp at hx
      subst hx
      exact h4
    · intro x hx
      simp at hx
      rcases hx with hx | hx
      · subst hx; exact h5
      · exact h6 x hx

theorem good_plain_parts {content : List Char}
    (h : LineSpec.good (.plain content) = true) :
    content ≠ [] ∧ (∀ c ∈ content, plainChar c = true)
    ∧ (∀ c ∈ content.head?, isMarker c = false) := by
  cases content with
  | nil => simp [LineSpec.good] at h
  | cons c cs =>
    simp [LineSpec.good] at h
    obtain ⟨⟨hc, hcs⟩, h2⟩ := h
    refine ⟨by simp, ?_, ?_⟩
    · intro x hx
      simp at hx
      rcases hx with hx | hx
      · subst hx; exact hc
      · exact hcs x hx
    · intro x hx
      simp at hx
      subst hx
      exact h2.1

theorem render_no_nl {l : LineSpec} (h : l.good = true) :
    ∀ c ∈ l.render, c ≠ '\n' := by
  cases l with
  | bullet m w content =>
    obtain ⟨hm, _, hwall, _, _, hplain⟩ := good_bullet_parts h
    intro c hc
    simp [LineSpec.render] at hc
    rcases hc with hc | hc | hc
    · subst hc; exact (isMarker_spec hm).2.2.2
    · exact (hwall c hc).2
    · exact (plainChar_spec (hplain c hc)).2.2.2.2
  | bare m content =>
    obtain ⟨hm, _, _, hplain⟩ := good_bare_parts h
    intro c hc
    simp [LineSpec.render] at hc
    rcases hc with hc | hc
    · subst hc; exact (isMarker_spec hm).2.2.2
    · exact (plainChar_spec (hplain c hc)).2.2.2.2
  | plain content =>
    obtain ⟨_, hplain, _⟩ := good_plain_parts h
    intro c hc
    simp [LineSpec.render] at hc
    exact (plainChar_spec (hplain c hc)).2.2.2.2

theorem render_no_esc {l : LineSpec} (h : l.good = true) :
    ∀ c ∈ l.render, c ≠ '&' ∧ c ≠ '<' ∧ c ≠ '>' := by
  cases l with
  | bullet m w content =>
    obtain ⟨hm, _, hwall, _, _, hplain⟩ := good_bullet_parts h
    intro c hc
    simp [LineSpec.render] at hc
    rcases hc with hc | hc | hc
    · subst hc
      obtain ⟨a, b, d, _⟩ := isMarker_spec hm
      exact ⟨a, b, d⟩
    · obtain ⟨a, b, d, _⟩ := jsWS_spec (hwall c hc).1
      exact ⟨a, b, d⟩
    · obtain ⟨a, b, d, _, _⟩ := plainChar_spec (hplain c hc)
      exact ⟨a, b, d⟩
  | bare m content =>
    obtain ⟨hm, _, _, hplain⟩ := good_bare_parts h
    intro c hc
    simp [LineSpec.render] at hc
    rcases hc with hc | hc
    · subst hc
      obtain ⟨a, b, d, _⟩ := isMarker_spec hm
      exact ⟨a, b, d⟩
    · obtain ⟨a, b, d, _, _⟩ := plainChar_spec (hplain c hc)
      exact ⟨a, b, d⟩
  | plain content =>
    obtain ⟨_, hplain, _⟩ := good_plain_parts h
    intro c hc
    simp [LineSpec.render] at hc
    obtain ⟨a, b, d, _, _⟩ := plainChar_spec (hplain c hc)
    exact ⟨a, b, d⟩

theorem render_tail_no_star {l : LineSpec} (h : l.good = true) :
    ∀ b ∈ l.render.tail, b ≠ '*' := by
  cases l with
  | bullet m w content =>
    obtain ⟨_, _, hwall, _, _, hplain⟩ := good_bullet_parts h
    intro b hb
    simp [LineSpec.render] at hb
    rcases hb with hb | hb
    · exact (jsWS_spec (hwall b hb).1).2.2.2
    · exact (plainChar_spec (hplain b hb)).2.2.2.1
  | bare m content =>
    obtain ⟨_, _, _, hplain⟩ := good_bare_parts h
    intro b hb
    simp [LineSpec.render] at hb
    exact (plainChar_spec (hplain b hb)).2.2.2.1
  | plain content =>
    obtain ⟨_, hplain, _⟩ := good_plain_parts h
    intro b hb
    simp [LineSpec.render] at hb
    exact (plainChar_spec (hplain b (List.mem_of_mem_tail hb))).2.2.2.1

theorem out_no_nl {l : LineSpec} (h : l.good = true) :
    ∀ c ∈ l.out, c ≠ '\n' := by
  cases l with
  | bullet m w content =>
    obtain ⟨_, _, _, _, _, hplain⟩ := good_bullet_parts h
    intro c hc
    simp [LineSpec.out] at hc
    rcases hc with hc | hc | hc
    · subst hc; decide
    · subst hc; decide
    · exact (plainChar_spec (hplain c hc)).2.2.2.2
  | bare m content =>
    obtain ⟨hm, _, _, hplain⟩ := good_bare_parts h
    intro c hc
    simp [LineSpec.out] at hc
    rcases hc with hc | hc
    · subst hc; exact (isMarker_spec hm).2.2.2
    · exact (plainChar_spec (hplain c hc)).2.2.2.2
  | plain content =>
    obtain ⟨_, hplain, _⟩ := good_plain_parts h
    intro c hc
    simp [LineSpec.out] at hc
    exact (plainChar_spec (hplain c hc)).2.2.2.2

theorem mem_joinNL {c : Char} {ls : List (List Char)} (h : c ∈ joinNL ls) :
    c = '\n' ∨ ∃ l ∈ ls, c ∈ l := by
  induction ls with
  | nil => simp [joinNL] at h
  | cons l ls2 ih =>
    cases ls2 with
    | nil =>
      right
      exact ⟨l, by simp, by simpa [joinNL] using h⟩
    | cons l2 ls3 =>
      rw [show joinNL (l :: l2 :: ls3) = l ++ '\n' :: joinNL (l2 :: ls3) from rfl] at h
      simp at h
      rcases h with h | h | h
      · exact Or.inr ⟨l, by simp, h⟩
      · exact Or.inl h
      · rcases ih h with h2 | ⟨l3, hl3, hc3⟩
        · exact Or.inl h2
        · exact Or.inr ⟨l3, by simp [hl3], hc3⟩

theorem escape_joinNL {specs : List LineSpec} (h : ∀ l ∈ specs, l.good = true) :
    escapeHTML (joinNL (specs.map LineSpec.render)) =
      joinNL (specs.map LineSpec.render) := by
  apply escapeHTML_id
  intro c hc
  rcases mem_joinNL hc with hnl | ⟨l, hl, hcl⟩
  · subst hnl
    exact ⟨by decide, by decide, by decide⟩
  · simp at hl
    obtain ⟨spec, hs, hr⟩ := hl
    exact render_no_esc (h spec hs) c (hr ▸ hcl)

theorem chain_joinNL {specs : List LineSpec} (h : ∀ l ∈ specs, l.good = true) :
    List.Chain' StarOk (joinNL (specs.map LineSpec.render)) := by
  induction specs with
  | nil => simp [joinNL]
  | cons l ls ih =>
    cases ls with
    | nil =>
      rw [show joinNL ([l].map LineSpec.render) = l.render from rfl]
      exact chain'_starOk_of_tail (render_tail_no_star (h l (by simp)))
    | cons l2 ls2 =>
      rw [show joinNL ((l :: l2 :: ls2).map LineSpec.render) =
          l.render ++ '\n' :: joinNL ((l2 :: ls2).map LineSpec.render) from rfl]
      rw [List.chain'_append]
      refine ⟨chain'_starOk_of_tail (render_tail_no_star (h l (by simp))), ?_, ?_⟩
      · rw [List.chain'_cons']
        refine ⟨fun y hy hand => absurd hand.1 (by decide), ?_⟩
        exact ih (fun x hx => h x (by simp [hx]))
      · intro x hx y hy
        simp at hy
        subst hy
        intro hand
        exact absurd hand.2 (by decide)

theorem brPass_joinNL {ls : List (List Char)} (h : ∀ l ∈ ls, ∀ c ∈ l, c ≠ '\n') :
    brPass (joinNL ls) = joinBR ls := by
  induction ls with
  | nil => rfl
  | cons l ls2 ih =>
    cases ls2 with
    | nil =>
      rw [show joinNL [l] = l from rfl, show joinBR [l] = l from rfl]
      exact brPass_id (h l (by simp))
    | cons l2 ls3 =>
      rw [show joinNL (l :: l2 :: ls3) = l ++ '\n' :: joinNL (l2 :: ls3) from rfl]
      rw [brPass_append, brPass_id (h l (by simp))]
      rw [show brPass ('\n' :: joinNL (l2 :: ls3)) =
          '<' :: 'b' :: 'r' :: '>' :: brPass (joinNL (l2 :: ls3)) by simp [brPass]]
      rw [ih (fun x hx => h x (by simp [hx]))]
      rfl

theorem bullet_step {l : LineSpec} {r : List Char} (hg : l.good = true)
    (hr : ∀ c ∈ r.head?, c = '\n') :
    bulletScan false ('\n' :: (l.render ++ r)) =
      '\n' :: (l.out ++ bulletScan false r) := by
  cases l with
  | bullet m w content =>
    obtain ⟨hm, hw, hwall, hcne, hchead, hplain⟩ := good_bullet_parts hg
    have hcnl : ∀ c ∈ content, c ≠ '\n' := fun c hc =>
      (plainChar_spec (hplain c hc)).2.2.2.2
    have hmat := matchAfterP1_bullet hm hw (fun c hc => (hwall c hc).1) hcne hchead
      hcnl hr
    rw [show LineSpec.render (.bullet m w content) ++ r = m :: (w ++ content ++ r) by
      simp [LineSpec.render]]
    have htry : tryMatchAt false ('\n' :: (m :: (w ++ content ++ r))) =
        some ('\n' :: '•' :: ' ' :: content, r) := by
      rw [tryMatchAt_false_nl, hmat]
      rfl
    rw [bulletScan_cons_some htry]
    simp [LineSpec.out]
  | bare m content =>
    obtain ⟨hm, hcne, hchead, hplain⟩ := good_bare_parts hg
    have hmat := matchAfterP1_bare (r := r) hm hcne hchead
    rw [show LineSpec.render (.bare m content) ++ r = m :: (content ++ r) by
      simp [LineSpec.render]]
    have htry : tryMatchAt false ('\n' :: (m :: (content ++ r))) = none := by
      rw [tryMatchAt_false_nl, hmat]
      rfl
    rw [bulletScan_cons_none htry]
    have hnl : ∀ c ∈ m :: content, c ≠ '\n' := by
      intro c hc
      simp at hc
      rcases hc with hc | hc
      · subst hc; exact (isMarker_spec hm).2.2.2
      · exact (plainChar_spec (hplain c hc)).2.2.2.2
    rw [show m :: (content ++ r) = (m :: content) ++ r from rfl, bulletScan_skip hnl]
    simp [LineSpec.out]
  | plain content =>
    obtain ⟨hcne, hplain, hhead⟩ := good_plain_parts hg
    cases content with
    | nil => exact absurd rfl hcne
    | cons c cs =>
      have hcm : isMarker c = false := hhead c (by simp)
      have hmat := (@matchAfterP1_no_marker c (cs ++ r)) hcm
      rw [show LineSpec.render (.plain (c :: cs)) ++ r = c :: (cs ++ r) from rfl]
      have htry : tryMatchAt false ('\n' :: (c :: (cs ++ r))) = none := by
        rw [tryMatchAt_false_nl, hmat]
        rfl
      rw [bulletScan_cons_none htry]
      have hnl : ∀ x ∈ c :: cs, x ≠ '\n' := fun x hx =>
        (plainChar_spec (hplain x hx)).2.2.2.2
      rw [show c :: (cs ++ r) = (c :: cs) ++ r from rfl, bulletScan_skip hnl]
      simp [LineSpec.out]

theorem bullet_step_start {l : LineSpec} {r : List Char} (hg : l.good = true)
    (hr : ∀ c ∈ r.head?, c = '\n') :
    bulletScan true (l.render ++ r) = l.out ++ bulletScan false r := by
  cases l with
  | bullet m w content =>
    obtain ⟨hm, hw, hwall, hcne, hchead, hplain⟩ := good_bullet_parts hg
    have hcnl : ∀ c ∈ content, c ≠ '\n' := fun c hc =>
      (plainChar_spec (hplain c hc)).2.2.2.2
    have hmat := matchAfterP1_bullet hm hw (fun c hc => (hwall c hc).1) hcne hchead
      hcnl hr
    rw [show LineSpec.render (.bullet m w content) ++ r = m :: (w ++ content ++ r) by
      simp [LineSpec.render]]
    rw [bulletScan_cons_some (tryMatchAt_true_some hmat)]
    simp [LineSpec.out]
  | bare m content =>
    obtain ⟨hm, hcne, hchead, hplain⟩ := good_bare_parts hg
    have hmat := matchAfterP1_bare (r := r) hm hcne hchead
    rw [show LineSpec.render (.bare m content) ++ r = m :: (content ++ r) by
      simp [LineSpec.render]]
    rw [bulletScan_cons_none (tryMatchAt_true_none hmat (isMarker_spec hm).2.2.2)]
    have hnl : ∀ c ∈ content, c ≠ '\n' := fun c hc =>
      (plainChar_spec (hplain c hc)).2.2.2.2
    rw [bulletScan_skip hnl]
    simp [LineSpec.out]
  | plain content =>
    obtain ⟨hcne, hplain, hhead⟩ := good_plain_parts hg
    cases content with
    | nil => exact absurd rfl hcne
    | cons c cs =>
      have hcm : isMarker c = false := hhead c (by simp)
      have hmat := (@matchAfterP1_no_marker c (cs ++ r)) hcm
      have hcnl : c ≠ '\n' := (plainChar_spec (hplain c (by simp))).2.2.2.2
      rw [show LineSpec.render (.plain (c :: cs)) ++ r = c :: (cs ++ r) from rfl]
      rw [bulletScan_cons_none (tryMatchAt_true_none hmat hcnl)]
      have hnl : ∀ x ∈ cs, x ≠ '\n' := fun x hx =>
        (plainChar_spec (hplain x (by simp [hx]))).2.2.2.2
      rw [bulletScan_skip hnl]
      simp [LineSpec.out]

theorem scan_after {specs : List LineSpec} (h : ∀ l ∈ specs, l.good = true) :
    bulletScan false ('\n' :: joinNL (specs.map LineSpec.render)) =
      '\n' :: joinNL (specs.map LineSpec.out) := by
  induction specs with
  | nil =>
    have htry : tryMatchAt false ['\n'] = none := by decide
    rw [show joinNL (List.map LineSpec.render []) = [] from rfl,
      show joinNL (List.map LineSpec.out []) = [] from rfl,
      bulletScan_cons_none htry, bulletScan_nil]
  | cons l ls ih =>
    cases ls with
    | nil =>
      have hstep := bullet_step (r := []) (h l (by simp)) (by simp)
      simpa [bulletScan_nil] using hstep
    | cons l2 ls2 =>
      have hstep := bullet_step (r := '\n' :: joinNL ((l2 :: ls2).map LineSpec.render))
        (h l (by simp)) (by simp)
      rw [show joinNL ((l :: l2 :: ls2).map LineSpec.render) =
          l.render ++ '\n' :: joinNL ((l2 :: ls2).map LineSpec.render) from rfl]
      rw [hstep, ih (fun x hx => h x (by simp [hx]))]
      rfl

theorem scan_start {specs : List LineSpec} (h : ∀ l ∈ specs, l.good = true) :
    bulletScan true (joinNL (specs.map LineSpec.render)) =
      joinNL (specs.map LineSpec.out) := by
  cases specs with
  | nil => exact bulletScan_nil true
  | cons l ls =>
    cases ls with
    | nil =>
      have hstep := bullet_step_start (r := []) (h l (by simp)) (by simp)
      simpa [bulletScan_nil] using hstep
    | cons l2 ls2 =>
      have hstep := bullet_step_start
        (r := '\n' :: joinNL ((l2 :: ls2).map LineSpec.render)) (h l (by simp)) (by simp)
      rw [show joinNL ((l :: l2 :: ls2).map LineSpec.render) =
          l.render ++ '\n' :: joinNL ((l2 :: ls2).map LineSpec.render) from rfl]
      rw [hstep, scan_after (fun x hx => h x (by simp [hx]))]
      rfl

theorem bulletScan_true_id {c : Char} {cs : List Char} (h1 : isMarker c = false)
    (h2 : c ≠ '\n') (h3 : ∀ x ∈ cs, x ≠ '\n') :
    bulletScan true (c :: cs) = c :: cs := by
  rw [bulletScan_cons_none (tryMatchAt_true_none (matchAfterP1_no_marker h1) h2),
    bulletScan_false_id h3]

/-- C5: `liteMarkdown` is exactly the four rewrites in fixed order —
escape `&<>`, then `**bold**` to `<strong>`, then bullet lines, then
newlines to `<br>`; `"**bold**"` becomes emphasized `bold` and
`"<script>"` becomes the escaped literal, with no unescaped `<`/`>`
left in the output. -/
theorem liteMarkdown_pipeline :
    (∀ s : String,
      liteMarkdown s =
        String.mk (brPass (bulletScan true (boldScan (escapeHTML s.data)))))
    ∧ liteMarkdown "**bold**" = "<strong>bold</strong>"
    ∧ liteMarkdown "<script>" = "&lt;script&gt;"
    ∧ (∀ c ∈ (liteMarkdown "<script>").data, c ≠ '<' ∧ c ≠ '>') := by
  have hboldex : liteMarkdown "**bold**" = "<strong>bold</strong>" := by
    have hesc : escapeHTML "**bold**".data = "**bold**".data := by decide
    have h1 : boldTryAt ['*', '*', 'b', 'o', 'l', 'd', '*', '*'] =
        some ("<strong>bold</strong>".data, []) := by decide
    have hbold : boldScan ['*', '*', 'b', 'o', 'l', 'd', '*', '*'] =
        "<strong>bold</strong>".data := by
      rw [boldScan_cons_some h1, boldScan_nil]
      simp
    have hbul : bulletScan true "<strong>bold</strong>".data =
        "<strong>bold</strong>".data :=
      bulletScan_true_id (by decide) (by decide) (by decide)
    have hbr : brPass "<strong>bold</strong>".data = "<strong>bold</strong>".data := by
      decide
    show String.mk (brPass (bulletScan true (boldScan (escapeHTML "**bold**".data)))) =
      "<strong>bold</strong>"
    rw [hesc, show ("**bold**".data : List Char) =
      ['*', '*', 'b', 'o', 'l', 'd', '*', '*'] from rfl, hbold, hbul, hbr]
  have hscript : liteMarkdown "<script>" = "&lt;script&gt;" := by
    have hesc : escapeHTML "<script>".data = "&lt;script&gt;".data := by decide
    have hbold : boldScan "&lt;script&gt;".data = "&lt;script&gt;".data :=
      boldScan_id_of_chain (chain'_starOk_of_tail (by decide))
    have hbul : bulletScan true "&lt;script&gt;".data = "&lt;script&gt;".data :=
      bulletScan_true_id (by decide) (by decide) (by decide)
    have hbr : brPass "&lt;script&gt;".data = "&lt;script&gt;".data := by decide
    show String.mk (brPass (bulletScan true (boldScan (escapeHTML "<script>".data)))) =
      "&lt;script&gt;"
    rw [hesc, hbold, hbul, hbr]
  refine ⟨fun s => rfl, hboldex, hscript, ?_⟩
  rw [hscript]
  decide

/-- Witness for C5: the pipeline shape at a concrete input, and the
no-unescaped-angle-bracket fact applied at a concrete character. -/
theorem liteMarkdown_pipeline_witness :
    liteMarkdown "hi" =
      String.mk (brPass (bulletScan true (boldScan (escapeHTML "hi".data))))
    ∧ ('&' ≠ '<' ∧ '&' ≠ '>') := by
  have h := liteMarkdown_pipeline
  refine ⟨h.1 "hi", ?_⟩
  have h4 := h.2.2.2
  rw [h.2.2.1] at h4
  exact h4 '&' (by decide)

/-- C6 counterexample: the line `-a` begins with the marker `-`, yet
`formatContent` leaves it untouched — the regex demands at least one
whitespace character (`\s+`) between the marker and the content, so no
bullet glyph is produced. -/
theorem bullet_no_whitespace_cex :
    liteMarkdown "-a" = "-a" ∧ "-a" ≠ "• a" ∧ "-a" ≠ "•a"
    ∧ "-a".data.head? = some '-' := by
  have hall : brPass (bulletScan true (boldScan (escapeHTML ['-', 'a']))) =
      ['-', 'a'] := by
    have hesc : escapeHTML ['-', 'a'] = ['-', 'a'] := by decide
    have hbold : boldScan ['-', 'a'] = ['-', 'a'] :=
      boldScan_id_of_chain (chain'_starOk_of_tail (by decide))
    have hscan : bulletScan true ['-', 'a'] = ['-', 'a'] := by
      have h2 := bullet_step_start (r := []) (l := .bare '-' ['a']) (by decide)
        (by simp)
      simpa [LineSpec.render, LineSpec.out, bulletScan_nil] using h2
    rw [hesc, hbold, hscan]
    decide
  have h1 : liteMarkdown "-a" = "-a" := by
    show String.mk (brPass (bulletScan true (boldScan (escapeHTML "-a".data)))) = "-a"
    rw [show ("-a".data : List Char) = ['-', 'a'] from rfl, hall]
  exact ⟨h1, by decide, by decide, by decide⟩

/-- C6 as amended: a line whose `-`/`*` marker is followed by at least
one whitespace character and then content has the marker and the
whitespace replaced by a bullet glyph `• ` before the rest of the
line; a line whose marker is not followed by whitespace (such as
`-a`), or with no marker at all, is left unchanged.  Stated for every
newline-join of well-formed lines, first line included. -/
theorem liteMarkdown_bullet_lines (specs : List LineSpec)
    (h : ∀ l ∈ specs, l.good = true) :
    liteMarkdown (String.mk (joinNL (specs.map LineSpec.render))) =
      String.mk (joinBR (specs.map LineSpec.out)) := by
  show String.mk (brPass (bulletScan true (boldScan (escapeHTML
    (String.mk (joinNL (specs.map LineSpec.render))).data)))) = _
  rw [show (String.mk (joinNL (specs.map LineSpec.render))).data =
      joinNL (specs.map LineSpec.render) from rfl]
  rw [escape_joinNL h, boldScan_id_of_chain (chain_joinNL h), scan_start h]
  rw [brPass_joinNL (by
    intro lc hlc c hc
    simp at hlc
    obtain ⟨spec, hs, ho⟩ := hlc
    exact out_no_nl (h spec hs) c (ho ▸ hc))]

/-- Witness for C6: the spec's example `"- a\n- b"` renders as two
bullet lines. -/
theorem liteMarkdown_bullet_lines_witness :
    liteMarkdown "- a\n- b" = "• a<br>• b" := by
  have h := liteMarkdown_bullet_lines
    [LineSpec.bullet '-' [' '] ['a'], LineSpec.bullet '-' [' '] ['b']] (by decide)
  have e1 : String.mk (joinNL ([LineSpec.bullet '-' [' '] ['a'],
      LineSpec.bullet '-' [' '] ['b']].map LineSpec.render)) = "- a\n- b" := by decide
  have e2 : String.mk (joinBR ([LineSpec.bullet '-' [' '] ['a'],
      LineSpec.bullet '-' [' '] ['b']].map LineSpec.out)) = "• a<br>• b" := by decide
  rw [e1, e2] at h
  exact h
